import Mathlib

/-!
Verification development for the spellbinder pipeline (src/index.js).

Text is modelled as `List Char`. Machine behavior that matters to the
claims is embedded shallowly:

- `replaceFirst pat s` models JavaScript `s.replace(/pat/, '')` for a
  literal, non-global pattern: it removes the first occurrence of `pat`
  anywhere in `s`, or returns `s` unchanged when `pat` does not occur.
- `callModel` models the retry wrapper around the transformation-service
  call (src/index.js lines 68-108).  The underlying service is an oracle
  `o : Nat → Option (List Char)` giving, for each attempt number, either
  an exception (`none`) or the response text (`some t`); an empty text is
  thrown as an error by the source (`if (!res.text) throw`).
- `mainRun` models the batch (EPUB) run of `main` after the metadata JSON
  has been parsed: the empty-chapter check, the per-chapter fan-out, the
  fatal exit when any unit exhausts its retries, and the positional
  assembly of `Promise.all` under an arbitrary completion order.
-/

namespace Spellbinder

/-- Result of one `callModel` invocation: either the post-processed
response text, or the process-fatal path (`process.exit(1)`). -/
inductive CallOutcome where
  | success (text : List Char)
  | fatal
deriving DecidableEq, Repr

/-- Boolean test that a `CallOutcome` is a success. -/
def CallOutcome.isSuccess : CallOutcome → Bool
  | CallOutcome.success _ => true
  | CallOutcome.fatal => false

/-- Does `pat` occur at the start of `s`?  Wrapper over `List.isPrefixOf`
so the development stays on Bool-valued, decidable tests. -/
def startsWith (pat s : List Char) : Bool :=
  pat.isPrefixOf s

/-- JavaScript `s.replace(/pat/, '')` for a literal non-global pattern:
remove the first occurrence of `pat` anywhere in `s`; if `pat` does not
occur, return `s` unchanged (src/index.js line 93). -/
def replaceFirst (pat : List Char) : List Char → List Char
  | [] => []
  | c :: rest =>
    if startsWith pat (c :: rest) then (c :: rest).drop pat.length
    else c :: replaceFirst pat rest

/-- Does `pat` occur anywhere in `s` (as a contiguous substring)? -/
def containsPat (pat : List Char) : List Char → Bool
  | [] => startsWith pat []
  | c :: rest => startsWith pat (c :: rest) || containsPat pat rest

/-- The code-fence opening the source strips: the literal characters of
the regular expression /```html\n/ in src/index.js line 93. -/
def fenceOpen : List Char := "```html\n".data

/-- The code-fence closing the source strips: the literal characters of
the regular expression /\n```/ in src/index.js line 93. -/
def fenceClose : List Char := "\n```".data

/-- Post-processing of a successful response, src/index.js line 93:
`res.text.replace(/```html\n/, '').replace(/\n```/, '')`. -/
def postprocess (s : List Char) : List Char :=
  replaceFirst fenceClose (replaceFirst fenceOpen s)

/-- One attempt of the underlying call fails when the service throws
(`none`) or returns empty/absent text, which line 89-91 of src/index.js
turns into a thrown error (`if (!res.text) throw ...`). -/
def attemptFails (o : Nat → Option (List Char)) (k : Nat) : Prop :=
  o k = none ∨ o k = some []

instance (o : Nat → Option (List Char)) (k : Nat) : Decidable (attemptFails o k) :=
  inferInstanceAs (Decidable (o k = none ∨ o k = some []))

/-- The retry wrapper of src/index.js lines 68-108, starting from a given
attempt counter: try the oracle at the current attempt; on an exception or
empty text, retry while `attempt < 3`, else take the process-fatal path;
on success return the post-processed text. -/
def callModelFrom (o : Nat → Option (List Char)) (attempt : Nat) : CallOutcome :=
  match o attempt with
  | some t =>
    if t = [] then
      if h : attempt < 3 then callModelFrom o (attempt + 1) else CallOutcome.fatal
    else
      CallOutcome.success (postprocess t)
  | none =>
    if h : attempt < 3 then callModelFrom o (attempt + 1) else CallOutcome.fatal
termination_by 4 - attempt
decreasing_by all_goals omega

/-- A full `callModel` invocation starts at attempt 0 (the default
argument `attempt = 0` in src/index.js line 68). -/
def callModel (o : Nat → Option (List Char)) : CallOutcome :=
  callModelFrom o 0

/-- Per-unit result of `genChapter` (src/index.js line 234):
`{title, data}` with `data` the post-processed transformed body. -/
structure UnitResult where
  title : List Char
  data : List Char
deriving DecidableEq, Repr

/-- Parsed analysis metadata (`meta = JSON.parse(res)`, src/index.js line
143).  Absent JSON fields are `none`; JavaScript reads them as
`undefined`. -/
structure DocumentMeta where
  title : Option (List Char)
  author : Option (List Char)
  chapters : Option (List (List Char))
deriving DecidableEq, Repr

/-- The argument object handed to the EPub builder (src/index.js lines
176-185): title and author are passed through from the parsed metadata
verbatim, and `content` is the `Promise.all` result array.  Slots are
`Option`-valued so that the positional filling of the array can be
modelled; in a successful run every slot is `some`. -/
structure EpubSpec where
  title : Option (List Char)
  author : Option (List Char)
  content : List (Option UnitResult)
deriving DecidableEq, Repr

/-- Observable outcome of a batch run: `process.exit` with a code, or a
rendered EPUB. -/
inductive RunResult where
  | fatalExit (code : Nat)
  | doneEpub (book : EpubSpec)
deriving DecidableEq, Repr

/-- Worker body for unit `i` (0-based), src/index.js lines 191-237 in
batch mode: call the model with the chapter prompt and produce
`{title, data}` on success.  The transformation service is modelled as a
per-unit oracle `o i : Nat → Option (List Char)` over attempt numbers.  A
fatal call yields no `UnitResult` (the source exits the process there);
`none` marks that path. -/
def genChapterRun (cs : List (List Char)) (o : Nat → Nat → Option (List Char))
    (i : Nat) : Option UnitResult :=
  match callModel (o i) with
  | CallOutcome.success b => some { title := cs.getD i [], data := b }
  | CallOutcome.fatal => none

/-- Positional slot-filling of `Promise.all` (src/index.js lines 171-173):
workers complete in an arbitrary order; when task `i` completes, slot `i`
receives that task's value.  `order` is the completion order (a list of
task indices). -/
def fillSlots (res : Nat → Option UnitResult) :
    List Nat → (Nat → Option UnitResult) → Nat → Option UnitResult
  | [], slots => slots
  | i :: rest, slots =>
    fillSlots res rest fun j => if j = i then res i else slots j

/-- The array `Promise.all` resolves with: slot `i` in index order for
`i < n`, after all completions in `order` have been applied. -/
def scheduleAll (res : Nat → Option UnitResult) (n : Nat) (order : List Nat) :
    List (Option UnitResult) :=
  (List.range n).map (fillSlots res order fun _ => none)

/-- Batch-mode (EPUB) run of `main` after the metadata JSON parse
succeeded, src/index.js lines 150-189: reject absent or empty `chapters`
with exit code 1 before scheduling anything (`if (!meta.chapters?.length)`,
lines 150-154); otherwise fan out one worker per chapter, exit 1 if any
worker's call reaches the fatal path, and otherwise build the EPub
argument from the metadata and the positionally assembled results. -/
def mainRun (m : DocumentMeta) (o : Nat → Nat → Option (List Char))
    (order : List Nat) : RunResult :=
  match m.chapters with
  | none => RunResult.fatalExit 1
  | some cs =>
    if cs.isEmpty then RunResult.fatalExit 1
    else if (List.range cs.length).all (fun i => (callModel (o i)).isSuccess) then
      RunResult.doneEpub
        { title := m.title
          author := m.author
          content := scheduleAll (genChapterRun cs o) cs.length order }
    else RunResult.fatalExit 1

/-- Number of unit workers `main` spawns: the `meta.chapters.map`
fan-out on src/index.js lines 171-173 runs only after the empty-chapters
guard on lines 150-154, so a rejected run spawns zero workers. -/
def workersSpawned (m : DocumentMeta) : Nat :=
  match m.chapters with
  | none => 0
  | some cs => if cs.isEmpty then 0 else cs.length

/-- The structure-analysis instruction text, src/index.js lines 123-126.
The "Unknown" author default is requested from the service here; it is
the only place the program mentions it. -/
def analysisPrompt : String :=
  "Examine the provided PDF carefully and return a JSON object with the work\x27s title in the \"title\" property, its author in the \"author\" property, (use \"Unknown\" if it\x27s not clear) and an array of chapter titles in the \"chapters\" property."

/-- The stop clause interpolated into the chapter prompt when a next
title is truthy, src/index.js lines 215-221: it names the next chapter by
number (`chapterN + 1`) and title. -/
def stopClause (chapterN : Nat) (nextTitle : List Char) : List Char :=
  ("Continue until you reach the next chapter, which is \"Chapter "
      ++ toString (chapterN + 1) ++ ": ").data
    ++ nextTitle ++ "\", then stop.".data

/-- The chapter prompt up to (and excluding) the stop-clause
interpolation, src/index.js lines 198-214, with template-literal line
continuations resolved. -/
def promptHead (title : List Char) (chapterN : Nat) : List Char :=
  ("You have been tasked with converting this PDF to an EPUB in a series of steps. \nHere are the conversion requirements:\n\n- Retain basic formatting with proper headings, emphasis, and paragraphs for reflowable layout on e-readers.\n- Omit extraneous text like page headings, page numbers, footnotes, etc.\n- Fix any obvious OCR transcription errors.\n- Remove all images. The final output should not contain any images and be text only.\n- Remove inline footnote numbers.\n\nFor the current step, we want to convert ONLY one chapter: \"Chapter "
      ++ toString chapterN ++ ": ").data
    ++ title
    ++ "\". Do not add the chapter title to the output. The output should consist only of the tags containing the chapter content (<p>, <h2>, <ol>, <blockquote>, etc.). The chapter MAY contain subsections, which should be headed with <h2> tags.\n\nPlease output only the HTML for this particular chapter, and nothing else, no commentary. ".data

/-- The full chapter prompt, src/index.js lines 198-222: head, then the
stop clause if `nextTitle` is truthy (JavaScript: `undefined` and the
empty string are falsy, so `none` and `some []` both drop the clause),
then the trailing newline before the closing template quote. -/
def chapterPrompt (title : List Char) (chapterN : Nat)
    (nextTitle : Option (List Char)) : List Char :=
  promptHead title chapterN
    ++ (match nextTitle with
        | some t => if t.isEmpty then [] else stopClause chapterN t
        | none => [])
    ++ "\n".data

/-- Prompts issued by the fan-out in `main` (src/index.js line 172):
chapter `i + 1` (1-based) gets title `cs[i]` and next title
`cs[i + 1]` (`undefined`, i.e. `none`, past the end). -/
def chapterPrompts (cs : List (List Char)) : List (List Char) :=
  (List.range cs.length).map fun i =>
    chapterPrompt (cs.getD i []) (i + 1) cs[i + 1]?

/-- Scheduler-pool state: counts of unit tasks not yet started, currently
executing, and finished. -/
structure SchedState where
  pending : Nat
  active : Nat
  done : Nat
deriving DecidableEq, Repr

/-- Modelled from the spec: the bounded-concurrency scheduling semantics
of the worker pool (spec §4.3 and §5).  The pool implementation itself is
the external `p-limit` library (`limitFunction(..., {concurrency: 5})`,
src/index.js lines 191-237, fixes the bound to 5 and applies it globally
to every `genChapter` worker); the repository contains only its call
site.  A step either starts a pending task — permitted only while the
number of active tasks is below the bound `C` — or finishes an active
task. -/
inductive SchedStep (C : Nat) : SchedState → SchedState → Prop
  | start (s : SchedState) (hp : 0 < s.pending) (ha : s.active < C) :
      SchedStep C s ⟨s.pending - 1, s.active + 1, s.done⟩
  | finish (s : SchedState) (ha : 0 < s.active) :
      SchedStep C s ⟨s.pending, s.active - 1, s.done + 1⟩

/-! ## Helper lemmas about the fence-stripping post-processing -/

theorem startsWith_self_append (pat t : List Char) :
    startsWith pat (pat ++ t) = true := by
  induction pat with
  | nil =>
    cases t with
    | nil => rfl
    | cons c rest => rfl
  | cons c cs ih => simp [startsWith, List.isPrefixOf, ih]

theorem replaceFirst_self_append (pat t : List Char) :
    replaceFirst pat (pat ++ t) = t := by
  cases pat with
  | nil =>
    cases t with
    | nil => rfl
    | cons c rest => simp [replaceFirst, startsWith, List.isPrefixOf]
  | cons c cs =>
    have h := startsWith_self_append (c :: cs) t
    rw [List.cons_append] at h ⊢
    rw [replaceFirst, h]
    simp [List.drop_succ_cons, List.drop_left]

theorem replaceFirst_of_not_contains (pat s : List Char)
    (h : containsPat pat s = false) : replaceFirst pat s = s := by
  induction s with
  | nil => rfl
  | cons c rest ih =>
    rw [containsPat, Bool.or_eq_false_iff] at h
    rw [replaceFirst, h.1, if_neg (by simp)]
    rw [ih h.2]

theorem containsPat_append_self (pat a b : List Char) :
    containsPat pat (a ++ (pat ++ b)) = true := by
  induction a with
  | nil =>
    rw [List.nil_append]
    cases hpb : pat ++ b with
    | nil =>
      have hp : pat = [] := by
        cases pat with
        | nil => rfl
        | cons c cs => simp at hpb
      subst hp
      simp [containsPat, startsWith, List.isPrefixOf]
    | cons c rest =>
      have h := startsWith_self_append pat b
      rw [hpb] at h
      rw [containsPat, h, Bool.true_or]
  | cons c cs ih =>
    rw [List.cons_append, containsPat, ih, Bool.or_true]

theorem replaceFirst_fresh_head (p : Char) (ps s : List Char) (h : p ∉ s) :
    replaceFirst (p :: ps) (s ++ p :: ps) = s := by
  induction s with
  | nil => simpa using replaceFirst_self_append (p :: ps) []
  | cons c rest ih =>
    have hc : (p == c) = false := by
      refine beq_eq_false_iff_ne.mpr fun he => h ?_
      rw [he]; exact List.mem_cons_self c rest
    have hsw : startsWith (p :: ps) (c :: (rest ++ p :: ps)) = false := by
      simp [startsWith, List.isPrefixOf, hc]
    rw [List.cons_append, replaceFirst, hsw, if_neg (by simp)]
    rw [ih fun hm => h (List.mem_cons_of_mem _ hm)]

/-! ## C6: fence stripping is by first occurrence, not anchored -/

/-- C6 counterexample: the source strips the first occurrence of the
fence-opening marker anywhere in the text, so a text whose fence markers
occur only in the interior is NOT returned unchanged, contrary to the
claim. -/
theorem fence_interior_not_preserved :
    postprocess "x```html\ny".data = "xy".data ∧
    postprocess "x```html\ny".data ≠ "x```html\ny".data := by
  constructor <;> decide

/-- C6 amended: `callModel` strips the first occurrence of the literal
"```html\n" anywhere in the text and then the first occurrence of the
literal "\n```" anywhere in the remainder (src/index.js line 93); in
particular a response that wraps a newline-free body between the two
fence markers is normalized to the body. -/
theorem postprocess_strips_wrapping_fences (s : List Char) (h : '\n' ∉ s) :
    postprocess (fenceOpen ++ s ++ fenceClose) = s := by
  unfold postprocess
  rw [List.append_assoc, replaceFirst_self_append fenceOpen (s ++ fenceClose)]
  have hc : fenceClose = '\n' :: "```".data := rfl
  rw [hc]
  exact replaceFirst_fresh_head '\n' "```".data s h

/-- C6 amended witness: scenario C of the spec at a concrete input. -/
theorem postprocess_strips_wrapping_fences_witness :
    '\n' ∉ "<p>hi</p>".data ∧
    postprocess (fenceOpen ++ "<p>hi</p>".data ++ fenceClose) = "<p>hi</p>".data :=
  ⟨by decide, postprocess_strips_wrapping_fences "<p>hi</p>".data (by decide)⟩

/-! ## Helper lemmas about the retry state machine -/

theorem callModelFrom_retry (o : Nat → Option (List Char)) (k : Nat)
    (hk : k < 3) (hf : attemptFails o k) :
    callModelFrom o k = callModelFrom o (k + 1) := by
  rcases hf with hf | hf <;> rw [callModelFrom, hf] <;> simp [hk]

theorem callModelFrom_exhausted (o : Nat → Option (List Char)) (k : Nat)
    (hk : ¬ k < 3) (hf : attemptFails o k) :
    callModelFrom o k = CallOutcome.fatal := by
  rcases hf with hf | hf <;> rw [callModelFrom, hf] <;> simp [hk]

theorem callModelFrom_success (o : Nat → Option (List Char)) (k : Nat) (t : List Char)
    (h : o k = some t) (ht : t ≠ []) :
    callModelFrom o k = CallOutcome.success (postprocess t) := by
  rw [callModelFrom, h]
  simp [ht]

theorem not_attemptFails (o : Nat → Option (List Char)) (k : Nat)
    (h : ¬ attemptFails o k) : ∃ t, o k = some t ∧ t ≠ [] := by
  unfold attemptFails at h
  push_neg at h
  cases ho : o k with
  | none => exact absurd ho h.1
  | some t =>
    refine ⟨t, rfl, fun he => h.2 ?_⟩
    rw [ho, he]

theorem callModel_fatal_iff_conj (o : Nat → Option (List Char)) :
    callModel o = CallOutcome.fatal ↔
      (attemptFails o 0 ∧ attemptFails o 1 ∧ attemptFails o 2 ∧ attemptFails o 3) := by
  rw [callModel]
  by_cases f0 : attemptFails o 0
  · rw [callModelFrom_retry o 0 (by omega) f0]
    by_cases f1 : attemptFails o 1
    · rw [callModelFrom_retry o 1 (by omega) f1]
      by_cases f2 : attemptFails o 2
      · rw [callModelFrom_retry o 2 (by omega) f2]
        by_cases f3 : attemptFails o 3
        · rw [callModelFrom_exhausted o 3 (by omega) f3]
          simp [f0, f1, f2, f3]
        · obtain ⟨t, ht, htne⟩ := not_attemptFails o 3 f3
          rw [callModelFrom_success o 3 t ht htne]
          simp [f3]
      · obtain ⟨t, ht, htne⟩ := not_attemptFails o 2 f2
        rw [callModelFrom_success o 2 t ht htne]
        simp [f2]
    · obtain ⟨t, ht, htne⟩ := not_attemptFails o 1 f1
      rw [callModelFrom_success o 1 t ht htne]
      simp [f1]
  · obtain ⟨t, ht, htne⟩ := not_attemptFails o 0 f0
    rw [callModelFrom_success o 0 t ht htne]
    simp [f0]

/-! ## C2: the retry budget -/

/-- C2 counterexample: an oracle whose underlying operation fails on all
of the first three attempts (attempt counters 0, 1, 2) and succeeds on
the fourth does NOT reach the fatal path — the guard `attempt < 3` of
src/index.js line 95 admits a fourth attempt, so the call succeeds,
contrary to the claim that three failures are process-fatal. -/
theorem three_failures_not_fatal :
    callModel (fun k => if k < 3 then none else some "ok".data) =
      CallOutcome.success "ok".data ∧
    callModel (fun k => if k < 3 then none else some "ok".data) ≠
      CallOutcome.fatal := by
  have h : callModel (fun k => if k < 3 then none else some "ok".data) =
      CallOutcome.success "ok".data := by
    rw [callModel,
      callModelFrom_retry _ 0 (by omega) (Or.inl rfl),
      callModelFrom_retry _ 1 (by omega) (Or.inl rfl),
      callModelFrom_retry _ 2 (by omega) (Or.inl rfl),
      callModelFrom_success _ 3 "ok".data rfl (by decide)]
    decide
  exact ⟨h, by simp [h]⟩

/-- C2 amended: the retry state machine permits at most 4 attempts in
total (the initial attempt plus three retries, `attempt < 3` with the
counter starting at 0): the call is fatal exactly when all four attempts
fail, and a call that fails twice and then succeeds on the third attempt
returns that attempt's post-processed text as a normal success. -/
theorem callModel_retry_budget (o : Nat → Option (List Char)) :
    (callModel o = CallOutcome.fatal ↔ ∀ k, k ≤ 3 → attemptFails o k) ∧
    (∀ t, attemptFails o 0 → attemptFails o 1 → o 2 = some t → t ≠ [] →
      callModel o = CallOutcome.success (postprocess t)) := by
  constructor
  · rw [callModel_fatal_iff_conj]
    constructor
    · rintro ⟨h0, h1, h2, h3⟩ k hk
      interval_cases k <;> assumption
    · intro h
      exact ⟨h 0 (by omega), h 1 (by omega), h 2 (by omega), h 3 (by omega)⟩
  · intro t h0 h1 h2 ht
    rw [callModel, callModelFrom_retry o 0 (by omega) h0,
      callModelFrom_retry o 1 (by omega) h1]
    exact callModelFrom_success o 2 t h2 ht

/-- C2 amended witness: fail twice, succeed on the third attempt, at a
concrete oracle. -/
theorem callModel_retry_budget_witness :
    attemptFails (fun k => if k < 2 then none else some "ok".data) 0 ∧
    attemptFails (fun k => if k < 2 then none else some "ok".data) 1 ∧
    (fun k => if k < 2 then none else some "ok".data) 2 = some "ok".data ∧
    "ok".data ≠ [] ∧
    callModel (fun k => if k < 2 then none else some "ok".data) =
      CallOutcome.success (postprocess "ok".data) :=
  ⟨Or.inl rfl, Or.inl rfl, rfl, by decide,
    (callModel_retry_budget _).2 "ok".data (Or.inl rfl) (Or.inl rfl) rfl (by decide)⟩

/-! ## C7: empty responses are errors, not empty successes -/

/-- C7: an attempt whose response carries empty or absent text is treated
as an error by the retry state machine: while attempts remain the call
re-enters at the next attempt counter, and once the budget is exhausted
it takes the fatal path — in neither case is the empty response returned
to the caller as an empty success. -/
theorem empty_response_treated_as_error (o : Nat → Option (List Char)) (k : Nat)
    (h : o k = none ∨ o k = some []) :
    (k < 3 → callModelFrom o k = callModelFrom o (k + 1)) ∧
    (¬ k < 3 → callModelFrom o k = CallOutcome.fatal) :=
  ⟨fun hk => callModelFrom_retry o k hk h, fun hk => callModelFrom_exhausted o k hk h⟩

/-- C7 witness: a concrete empty response at attempt 0. -/
theorem empty_response_treated_as_error_witness :
    ((fun _ : Nat => some ([] : List Char)) 0 = none ∨
      (fun _ : Nat => some ([] : List Char)) 0 = some []) ∧
    ((0 < 3 →
        callModelFrom (fun _ => some []) 0 = callModelFrom (fun _ => some []) (0 + 1)) ∧
      (¬ 0 < 3 → callModelFrom (fun _ => some []) 0 = CallOutcome.fatal)) :=
  ⟨Or.inr rfl, empty_response_treated_as_error (fun _ => some []) 0 (Or.inr rfl)⟩

/-! ## C9: identity on fence-free successful responses -/

/-- C9: for a non-empty response text containing neither "```html\n" nor
"\n```" as a substring, `callModel` returns the text unchanged. -/
theorem callModel_fence_free_identity (o : Nat → Option (List Char)) (s : List Char)
    (hne : s ≠ []) (h1 : containsPat fenceOpen s = false)
    (h2 : containsPat fenceClose s = false) (h0 : o 0 = some s) :
    callModel o = CallOutcome.success s := by
  rw [callModel, callModelFrom, h0]
  simp [hne, postprocess, replaceFirst_of_not_contains _ _ h1,
    replaceFirst_of_not_contains _ _ h2]

/-- C9 witness: a concrete fence-free response comes back verbatim. -/
theorem callModel_fence_free_identity_witness :
    "hello".data ≠ [] ∧
    containsPat fenceOpen "hello".data = false ∧
    containsPat fenceClose "hello".data = false ∧
    callModel (fun _ => some "hello".data) = CallOutcome.success "hello".data :=
  ⟨by decide, by decide, by decide,
    callModel_fence_free_identity (fun _ => some "hello".data) "hello".data
      (by decide) (by decide) (by decide) rfl⟩

/-! ## Helper lemmas about positional assembly -/

theorem fillSlots_not_mem (res : Nat → Option UnitResult) (l : List Nat)
    (slots : Nat → Option UnitResult) (i : Nat) (h : i ∉ l) :
    fillSlots res l slots i = slots i := by
  induction l generalizing slots with
  | nil => rfl
  | cons j rest ih =>
    have hij : i ≠ j := fun he => h (by rw [he]; exact List.mem_cons_self j rest)
    rw [fillSlots, ih _ fun hm => h (List.mem_cons_of_mem _ hm)]
    simp [hij]

theorem fillSlots_mem (res : Nat → Option UnitResult) (l : List Nat)
    (slots : Nat → Option UnitResult) (i : Nat)
    (h : i ∈ l ∨ slots i = res i) : fillSlots res l slots i = res i := by
  induction l generalizing slots with
  | nil =>
    rcases h with h | h
    · exact absurd h (List.not_mem_nil i)
    · exact h
  | cons j rest ih =>
    rw [fillSlots]
    apply ih
    by_cases hij : i = j
    · by_cases hr : i ∈ rest
      · exact Or.inl hr
      · right; simp [hij]
    · rcases h with hmem | hs
      · rcases List.mem_cons.mp hmem with he | hr
        · exact absurd he hij
        · exact Or.inl hr
      · right; simpa [hij] using hs

theorem scheduleAll_complete (res : Nat → Option UnitResult) (n : Nat)
    (order : List Nat) (h : ∀ i, i < n → i ∈ order) :
    scheduleAll res n order = (List.range n).map res := by
  unfold scheduleAll
  refine List.map_congr_left fun i hi => ?_
  exact fillSlots_mem res order _ i (Or.inl (h i (List.mem_range.mp hi)))

theorem mainRun_all_success (mt ma : Option (List Char)) (cs : List (List Char))
    (o : Nat → Nat → Option (List Char)) (bodies : Nat → List Char) (order : List Nat)
    (hne : cs ≠ [])
    (hsucc : ∀ i, i < cs.length → callModel (o i) = CallOutcome.success (bodies i))
    (hord : ∀ i, i < cs.length → i ∈ order) :
    mainRun ⟨mt, ma, some cs⟩ o order = RunResult.doneEpub
      { title := mt
        author := ma
        content := (List.range cs.length).map
          fun i => some { title := cs.getD i [], data := bodies i } } := by
  show (if cs.isEmpty then RunResult.fatalExit 1 else _) = _
  rw [if_neg (by simpa [List.isEmpty_iff] using hne), if_pos]
  · have hcontent : scheduleAll (genChapterRun cs o) cs.length order =
        (List.range cs.length).map
          fun i => some { title := cs.getD i [], data := bodies i } := by
      rw [scheduleAll_complete _ _ _ hord]
      refine List.map_congr_left fun i hi => ?_
      rw [genChapterRun, hsucc i (List.mem_range.mp hi)]
    rw [hcontent]
  · refine List.all_eq_true.mpr fun i hi => ?_
    rw [hsucc i (List.mem_range.mp hi)]
    rfl

/-! ## C1: the composite preserves the metadata unit order -/

/-- C1: in a run where every unit transformation succeeds, and for every
completion order of the workers that completes each unit, the composite
handed to the EPub builder lists entry `i` as unit `i`'s title paired
with unit `i`'s transformed body, in the order of the metadata's chapter
list — independent of the completion order. -/
theorem composite_order_matches_metadata (m : DocumentMeta)
    (cs : List (List Char)) (o : Nat → Nat → Option (List Char))
    (bodies : Nat → List Char) (order : List Nat)
    (hm : m.chapters = some cs) (hne : cs ≠ [])
    (hsucc : ∀ i, i < cs.length → callModel (o i) = CallOutcome.success (bodies i))
    (hord : ∀ i, i < cs.length → i ∈ order) :
    mainRun m o order = RunResult.doneEpub
      { title := m.title
        author := m.author
        content := (List.range cs.length).map
          fun i => some { title := cs.getD i [], data := bodies i } } := by
  obtain ⟨mt, ma, mc⟩ := m
  simp only at hm
  subst hm
  exact mainRun_all_success mt ma cs o bodies order hne hsucc hord

/-- C1 witness: three units, all succeeding on the first attempt, with
the out-of-order completion order [2, 0, 1]. -/
theorem composite_order_matches_metadata_witness :
    (⟨some "T".data, some "A".data,
        some ["Intro".data, "Body".data, "End".data]⟩ : DocumentMeta).chapters =
      some ["Intro".data, "Body".data, "End".data] ∧
    (["Intro".data, "Body".data, "End".data] : List (List Char)) ≠ [] ∧
    (∀ i, i < (["Intro".data, "Body".data, "End".data] : List (List Char)).length →
      callModel ((fun _ _ => some "b".data) i) = CallOutcome.success ("b".data)) ∧
    (∀ i, i < (["Intro".data, "Body".data, "End".data] : List (List Char)).length →
      i ∈ ([2, 0, 1] : List Nat)) ∧
    mainRun ⟨some "T".data, some "A".data,
        some ["Intro".data, "Body".data, "End".data]⟩ (fun _ _ => some "b".data)
        [2, 0, 1] =
      RunResult.doneEpub
        { title := some "T".data
          author := some "A".data
          content := (List.range
              (["Intro".data, "Body".data, "End".data] : List (List Char)).length).map
            fun i => some
              { title := (["Intro".data, "Body".data, "End".data] : List (List Char)).getD i []
                data := (fun _ : Nat => "b".data) i } } := by
  have hs : ∀ i, i < (["Intro".data, "Body".data, "End".data] : List (List Char)).length →
      callModel ((fun _ _ => some "b".data) i) = CallOutcome.success ("b".data) := by
    intro i _
    have := callModelFrom_success (fun _ => some "b".data) 0 "b".data rfl (by decide)
    rw [callModel, this]
    decide
  refine ⟨rfl, by decide, hs, by decide, ?_⟩
  exact composite_order_matches_metadata _ _ _ (fun _ => "b".data) _ rfl (by decide)
    hs (by decide)

/-! ## C4: empty or absent unit list aborts before scheduling -/

/-- C4: if the parsed analysis metadata has an absent or empty chapter
list, the run exits fatally with code 1 and spawns zero unit workers, so
no per-unit transformation call is ever issued. -/
theorem empty_units_fatal_before_scheduling (m : DocumentMeta)
    (o : Nat → Nat → Option (List Char)) (order : List Nat)
    (h : m.chapters = none ∨ m.chapters = some []) :
    mainRun m o order = RunResult.fatalExit 1 ∧ workersSpawned m = 0 := by
  obtain ⟨mt, ma, mc⟩ := m
  simp only at h
  rcases h with h | h <;> subst h <;> exact ⟨rfl, rfl⟩

/-- C4 witness: a metadata value with an empty chapter list. -/
theorem empty_units_fatal_before_scheduling_witness :
    ((⟨some "T".data, none, some []⟩ : DocumentMeta).chapters = none ∨
      (⟨some "T".data, none, some []⟩ : DocumentMeta).chapters = some []) ∧
    mainRun ⟨some "T".data, none, some []⟩ (fun _ _ => some "b".data) [] =
        RunResult.fatalExit 1 ∧
    workersSpawned ⟨some "T".data, none, some []⟩ = 0 := by
  refine ⟨Or.inr rfl, ?_⟩
  exact empty_units_fatal_before_scheduling _ (fun _ _ => some "b".data) [] (Or.inr rfl)

/-! ## C5: a fatally failing unit aborts the whole run -/

/-- C5: if any unit's transformation call exhausts its retries, the batch
(EPUB) run terminates with exit code 1; in particular it never produces a
composite at all, so no successful composite containing only the other
units is emitted. -/
theorem unit_fatal_aborts_run (m : DocumentMeta) (o : Nat → Nat → Option (List Char))
    (order : List Nat) (cs : List (List Char)) (i : Nat)
    (hm : m.chapters = some cs) (hi : i < cs.length)
    (hf : callModel (o i) = CallOutcome.fatal) :
    mainRun m o order = RunResult.fatalExit 1 := by
  obtain ⟨mt, ma, mc⟩ := m
  simp only at hm
  subst hm
  show (if cs.isEmpty then RunResult.fatalExit 1 else _) = _
  by_cases he : cs.isEmpty
  · rw [if_pos he]
  · rw [if_neg he, if_neg]
    intro hall
    have hsi := List.all_eq_true.mp hall i (List.mem_range.mpr hi)
    rw [hf] at hsi
    exact absurd hsi (by decide)

/-- C5 witness: two units, the first failing on every attempt. -/
theorem unit_fatal_aborts_run_witness :
    (⟨some "T".data, none, some ["U1".data, "U2".data]⟩ : DocumentMeta).chapters =
      some ["U1".data, "U2".data] ∧
    0 < (["U1".data, "U2".data] : List (List Char)).length ∧
    callModel ((fun i _ => if i = 0 then none else some "b".data) 0) =
      CallOutcome.fatal ∧
    mainRun ⟨some "T".data, none, some ["U1".data, "U2".data]⟩
        (fun i _ => if i = 0 then none else some "b".data) [0, 1] =
      RunResult.fatalExit 1 := by
  have hf : callModel ((fun i _ : Nat => if i = 0 then none else some "b".data) 0) =
      CallOutcome.fatal := by
    refine (callModel_fatal_iff_conj _).mpr ?_
    exact ⟨Or.inl rfl, Or.inl rfl, Or.inl rfl, Or.inl rfl⟩
  refine ⟨rfl, by decide, hf, ?_⟩
  exact unit_fatal_aborts_run _ _ [0, 1] ["U1".data, "U2".data] 0 rfl (by decide) hf

/-! ## A computable closed form for callModel -/

theorem callModel_closed_form (o : Nat → Option (List Char)) :
    callModel o =
      if attemptFails o 0 then
        if attemptFails o 1 then
          if attemptFails o 2 then
            if attemptFails o 3 then CallOutcome.fatal
            else CallOutcome.success (postprocess ((o 3).getD []))
          else CallOutcome.success (postprocess ((o 2).getD []))
        else CallOutcome.success (postprocess ((o 1).getD []))
      else CallOutcome.success (postprocess ((o 0).getD [])) := by
  rw [callModel]
  by_cases f0 : attemptFails o 0
  · rw [callModelFrom_retry o 0 (by omega) f0, if_pos f0]
    by_cases f1 : attemptFails o 1
    · rw [callModelFrom_retry o 1 (by omega) f1, if_pos f1]
      by_cases f2 : attemptFails o 2
      · rw [callModelFrom_retry o 2 (by omega) f2, if_pos f2]
        by_cases f3 : attemptFails o 3
        · rw [callModelFrom_exhausted o 3 (by omega) f3, if_pos f3]
        · obtain ⟨t, ht, htne⟩ := not_attemptFails o 3 f3
          rw [callModelFrom_success o 3 t ht htne, if_neg f3, ht]
          rfl
      · obtain ⟨t, ht, htne⟩ := not_attemptFails o 2 f2
        rw [callModelFrom_success o 2 t ht htne, if_neg f2, ht]
        rfl
    · obtain ⟨t, ht, htne⟩ := not_attemptFails o 1 f1
      rw [callModelFrom_success o 1 t ht htne, if_neg f1, ht]
      rfl
  · obtain ⟨t, ht, htne⟩ := not_attemptFails o 0 f0
    rw [callModelFrom_success o 0 t ht htne, if_neg f0, ht]
    rfl

/-! ## C3: the concurrency bound -/

theorem sched_invariant (C N : Nat) (s : SchedState)
    (h : Relation.ReflTransGen (SchedStep C) ⟨N, 0, 0⟩ s) :
    s.pending + s.active + s.done = N ∧ s.active ≤ C := by
  induction h with
  | refl => exact ⟨rfl, Nat.zero_le C⟩
  | tail _ hstep ih =>
    obtain ⟨ih1, ih2⟩ := ih
    cases hstep with
    | start hp ha => exact ⟨by simp only; omega, by simp only; omega⟩
    | finish ha => exact ⟨by simp only; omega, by simp only; omega⟩

/-- C3: starting from N pending unit tasks and no active workers, with
the bound fixed at 5 (src/index.js line 236), every reachable scheduler
state has at most min N 5 concurrently executing workers; the bound is
enforced by the single global capacity guard of the step relation, not
per batch. -/
theorem workers_never_exceed_bound (N : Nat) (_hN : 1 ≤ N) (s : SchedState)
    (h : Relation.ReflTransGen (SchedStep 5) ⟨N, 0, 0⟩ s) :
    s.active ≤ min N 5 := by
  obtain ⟨h1, h2⟩ := sched_invariant 5 N s h
  omega

/-- C3 witness: after one start step from two pending tasks, one worker
is active, within the bound. -/
theorem workers_never_exceed_bound_witness :
    1 ≤ 2 ∧
    Relation.ReflTransGen (SchedStep 5) ⟨2, 0, 0⟩ ⟨1, 1, 0⟩ ∧
    SchedState.active ⟨1, 1, 0⟩ ≤ min 2 5 := by
  have hstep : Relation.ReflTransGen (SchedStep 5) ⟨2, 0, 0⟩ ⟨1, 1, 0⟩ :=
    Relation.ReflTransGen.single (SchedStep.start ⟨2, 0, 0⟩ (by decide) (by decide))
  exact ⟨by decide, hstep, workers_never_exceed_bound 2 (by decide) _ hstep⟩

/-! ## C8: the author default is requested, not enforced -/

/-- C8 counterexample: a run whose parsed analysis payload carries no
author field produces a composite whose author field is likewise absent:
the EPub argument takes `meta.author` verbatim (src/index.js line 179)
and no "Unknown" default is applied by the program, contrary to the
claim. -/
theorem author_default_counterexample :
    mainRun ⟨some "T".data, none, some ["c".data]⟩ (fun _ _ => some "b".data) [0] =
      RunResult.doneEpub
        { title := some "T".data
          author := none
          content := [some { title := "c".data, data := "b".data }] } ∧
    (none : Option (List Char)) ≠ some "Unknown".data := by
  constructor
  · have h := mainRun_all_success (some "T".data) none ["c".data]
      (fun _ _ => some "b".data) (fun _ => "b".data) [0] (by decide)
      (fun i _ => by
        show callModel (fun _ : Nat => some "b".data) =
          CallOutcome.success "b".data
        rw [callModel_closed_form]; decide) (by decide)
    exact h.trans (by decide)
  · decide

/-- C8 amended: the program applies no author default — whenever the
batch run produces a composite, its author field equals the parsed
metadata's author field verbatim (absent stays absent); "Unknown" exists
only as a request inside the analysis instruction text sent to the
transformation service. -/
theorem author_passed_through_verbatim (m : DocumentMeta)
    (o : Nat → Nat → Option (List Char)) (order : List Nat) (b : EpubSpec)
    (h : mainRun m o order = RunResult.doneEpub b) :
    b.author = m.author ∧ containsPat "Unknown".data analysisPrompt.data = true := by
  refine ⟨?_, by decide⟩
  obtain ⟨mt, ma, mc⟩ := m
  cases mc with
  | none => simp [mainRun] at h
  | some cs =>
    simp only [mainRun] at h
    split at h
    · simp at h
    · split at h
      · injection h with hb
        rw [← hb]
      · simp at h

/-- C8 amended witness: a concrete author-less run, with the author field
passed through as absent. -/
theorem author_passed_through_verbatim_witness :
    mainRun ⟨some "T".data, none, some ["c".data]⟩ (fun _ _ => some "b".data) [0] =
      RunResult.doneEpub
        { title := some "T".data
          author := none
          content := [some { title := "c".data, data := "b".data }] } ∧
    ({ title := some "T".data,
        author := none,
        content := [some { title := "c".data, data := "b".data }] } : EpubSpec).author =
      (⟨some "T".data, none, some ["c".data]⟩ : DocumentMeta).author ∧
    containsPat "Unknown".data analysisPrompt.data = true := by
  have h : mainRun ⟨some "T".data, none, some ["c".data]⟩ (fun _ _ => some "b".data) [0] =
      RunResult.doneEpub
        { title := some "T".data
          author := none
          content := [some { title := "c".data, data := "b".data }] } := by
    have h0 := mainRun_all_success (some "T".data) none ["c".data]
      (fun _ _ => some "b".data) (fun _ => "b".data) [0] (by decide)
      (fun i _ => by
        show callModel (fun _ : Nat => some "b".data) =
          CallOutcome.success "b".data
        rw [callModel_closed_form]; decide) (by decide)
    exact h0.trans (by decide)
  exact ⟨h, (author_passed_through_verbatim _ _ _ _ h).1,
    (author_passed_through_verbatim _ _ _ _ h).2⟩

/-! ## C10: the stop clause and its boundary behavior -/

theorem chapterPrompts_getElem (cs : List (List Char)) (i : Nat) (hi : i < cs.length) :
    (chapterPrompts cs)[i]? = some (chapterPrompt (cs.getD i []) (i + 1) cs[i + 1]?) := by
  unfold chapterPrompts
  rw [List.getElem?_map, List.getElem?_range hi]
  rfl

set_option maxRecDepth 4000 in
/-- C10 counterexample: with chapter list ["A", ""] the instruction built
for chapter 1 contains no stop clause at all — the next chapter's title
is the empty string, which is falsy in JavaScript (src/index.js line
216), so the clause naming "Chapter 2" is dropped even though chapter 1
is not the last chapter, contrary to the claim. -/
theorem stop_clause_dropped_for_empty_title :
    (chapterPrompts ["A".data, []])[0]? =
      some (chapterPrompt "A".data 1 (some [])) ∧
    containsPat "Continue until".data (chapterPrompt "A".data 1 (some [])) = false := by
  constructor
  · rfl
  · decide

/-- C10 amended: for every chapter list and chapter number n with
1 ≤ n < N, the instruction built for chapter n contains a stop clause
naming chapter n + 1 by its number and title provided chapter n + 1's
title is non-empty (JavaScript truthiness: an empty next title drops the
clause exactly as for the last chapter); for the last chapter (n = N)
the instruction is the prompt head plus the trailing newline, with no
stop clause appended. -/
theorem stop_clause_boundaries (cs : List (List Char)) (n : Nat)
    (h1 : 1 ≤ n) (h2 : n ≤ cs.length) :
    (chapterPrompts cs)[n - 1]? =
      some (chapterPrompt (cs.getD (n - 1) []) n cs[n]?) ∧
    (n < cs.length → cs.getD n [] ≠ [] →
      containsPat (stopClause n (cs.getD n []))
        (chapterPrompt (cs.getD (n - 1) []) n cs[n]?) = true) ∧
    (n = cs.length →
      chapterPrompt (cs.getD (n - 1) []) n cs[n]? =
        promptHead (cs.getD (n - 1) []) n ++ "\n".data) := by
  refine ⟨?_, ?_, ?_⟩
  · have h := chapterPrompts_getElem cs (n - 1) (by omega)
    rw [show n - 1 + 1 = n from by omega] at h
    exact h
  · intro hn hne
    have hget : cs[n]? = some (cs.getD n []) := by
      rw [List.getElem?_eq_getElem hn, List.getD_eq_getElem cs [] hn]
    rw [hget, chapterPrompt]
    rw [if_neg (by simpa [List.isEmpty_iff] using hne)]
    rw [List.append_assoc]
    exact containsPat_append_self _ _ _
  · intro hn
    have hget : cs[n]? = none := List.getElem?_eq_none (by omega)
    rw [hget, chapterPrompt]
    simp

/-- C10 amended witness: two chapters with non-empty titles; chapter 1's
instruction carries the stop clause for chapter 2, and chapter 2 is the
last chapter. -/
theorem stop_clause_boundaries_witness :
    1 ≤ 1 ∧ 1 ≤ (["A".data, "B".data] : List (List Char)).length ∧
    ((chapterPrompts ["A".data, "B".data])[1 - 1]? =
        some (chapterPrompt ((["A".data, "B".data] : List (List Char)).getD (1 - 1) []) 1
          (["A".data, "B".data] : List (List Char))[1]?) ∧
      (1 < (["A".data, "B".data] : List (List Char)).length →
        (["A".data, "B".data] : List (List Char)).getD 1 [] ≠ [] →
        containsPat (stopClause 1 ((["A".data, "B".data] : List (List Char)).getD 1 []))
          (chapterPrompt ((["A".data, "B".data] : List (List Char)).getD (1 - 1) []) 1
            (["A".data, "B".data] : List (List Char))[1]?) = true) ∧
      (1 = (["A".data, "B".data] : List (List Char)).length →
        chapterPrompt ((["A".data, "B".data] : List (List Char)).getD (1 - 1) []) 1
            (["A".data, "B".data] : List (List Char))[1]? =
          promptHead ((["A".data, "B".data] : List (List Char)).getD (1 - 1) []) 1 ++
            "\n".data)) :=
  ⟨by decide, by decide,
    stop_clause_boundaries ["A".data, "B".data] 1 (by decide) (by decide)⟩

end Spellbinder
